import Mathlib

set_option maxHeartbeats 1000000
set_option linter.unusedVariables false

/-!
Shallow embedding of the `NetworkGraph` canvas component (force-directed
note-graph visualization). Node coordinates are modelled as real numbers;
a JavaScript number that may be `undefined` is modelled as `Option ℝ`.
Imperative loops are modelled as structurally recursive functions that
return the sequence of externally visible effects (draw-callback
invocations), and fallible code paths are modelled with `Except`.
-/

namespace Lumen

/-- A 2D point (model space or screen space). -/
structure Position where
  x : ℝ
  y : ℝ

/-- Cardinal directions used by keyboard navigation. -/
inductive Direction where
  | n
  | s
  | e
  | w
deriving DecidableEq

/-- A simulation node: an id plus a position that is `undefined` until the
layout engine assigns it. Extra simulation fields (velocity, fixed
position) are irrelevant to the verified routines and omitted. -/
structure Node where
  id : String
  x : Option ℝ
  y : Option ℝ

noncomputable instance : DecidableEq Position := Classical.decEq _

noncomputable instance : DecidableEq Node := Classical.decEq _

/-- A link endpoint: either a still-unresolved string id, or a reference to
a node object (after the simulation resolves endpoints). -/
inductive NodeRef where
  | ref (id : String)
  | node (n : Node)

/-- A link between two endpoints. -/
structure Link where
  source : NodeRef
  target : NodeRef

/-- The d3 zoom transform: scale `k` and translation `(tx, ty)` from model
space to screen space. -/
structure Transform where
  k : ℝ
  tx : ℝ
  ty : ℝ

/-- Transform.apply maps a model-space point to screen space:
`[x, y] ↦ [x * k + tx, y * k + ty]`. -/
noncomputable def Transform.apply (t : Transform) (p : Position) : Position :=
  ⟨p.x * t.k + t.tx, p.y * t.k + t.ty⟩

/-- Transform.invert maps a screen-space point back to model space:
`[x, y] ↦ [(x - tx) / k, (y - ty) / k]`. -/
noncomputable def Transform.invert (t : Transform) (p : Position) : Position :=
  ⟨(p.x - t.tx) / t.k, (p.y - t.ty) / t.k⟩

/-- Position-cache merge from the nodes/links effect: each incoming node is
paired with the cached simulation node of the same id (found by `find`),
and its `x`/`y` fields are overwritten with the cached coordinates, which
are `undefined` when no cached node matches. -/
def mergeNodes (prev incoming : List Node) : List Node :=
  incoming.map fun node =>
    let cachedNode := prev.find? fun cached => cached.id == node.id
    { node with x := cachedNode.bind Node.x, y := cachedNode.bind Node.y }

/-- First-node lookup used by the Tab handler: `simulationNodes.current[0].id`
throws a TypeError when the list is empty, modelled as `Except.error`. -/
def firstNodeId : List Node → Except Unit String
  | [] => Except.error ()
  | n :: _ => Except.ok n.id

/-- Id reported by the Tab handler when no node is selected:
`prevSelectedNode?.id || simulationNodes.current[0].id`. The left operand is
falsy when the memo is absent or its id is the empty string; only then is
the first list element read. -/
def tabTargetId (prevSelectedNode : Option Node) (simNodes : List Node) :
    Except Unit String :=
  match prevSelectedNode with
  | some p => if p.id = "" then firstNodeId simNodes else Except.ok p.id
  | none => firstNodeId simNodes

/-- Guard of the Tab branch of the keydown handler: it runs only when the
key is Tab, Shift is not held, and `selectedId` is falsy (empty). -/
def onTabKeyDown (selectedId : String) (shiftKey : Bool)
    (prevSelectedNode : Option Node) (simNodes : List Node) :
    Option (Except Unit String) :=
  if selectedId = "" ∧ shiftKey = false then
    some (tabTargetId prevSelectedNode simNodes)
  else
    none

/-- Center point handed to the centering force. The source passes
`window.innerWidth / 2` and `window.innerHeight / 2`; the component props
`width` and `height` are not consulted. -/
noncomputable def forceCenterPoint (innerWidth innerHeight width height : ℝ) :
    Position :=
  ⟨innerWidth / 2, innerHeight / 2⟩

/-- Distance between two points, from `getDistance`:
`Math.sqrt(Math.pow(b.x - a.x, 2) + Math.pow(b.y - a.y, 2))`. -/
noncomputable def getDistance (a b : Position) : ℝ :=
  Real.sqrt ((b.x - a.x) ^ 2 + (b.y - a.y) ^ 2)

/-- Angle between two points under JavaScript IEEE-754 semantics of the
unguarded `Math.atan(oppositeSide / adjacentSide)`: with both sides finite
and nonnegative, dividing a positive number by zero yields `Infinity` and
`atan(Infinity) = π/2`, while `0 / 0` is `NaN` and `atan(NaN)` is `NaN`
(modelled as `none`). -/
noncomputable def getAngleJS (a b : Position) (direction : Direction) : Option ℝ :=
  let oppositeSide : ℝ :=
    match direction with
    | .n | .s => |b.x - a.x|
    | .e | .w => |b.y - a.y|
  let adjacentSide : ℝ :=
    match direction with
    | .n | .s => |b.y - a.y|
    | .e | .w => |b.x - a.x|
  if adjacentSide = 0 then
    if oppositeSide = 0 then none
    else some (Real.pi / 2)
  else some (Real.arctan (oppositeSide / adjacentSide))

/-- Score `(1 / distance) * (Math.PI / 2 - angle)` under JavaScript
semantics: a `NaN` angle poisons the whole product (`π/2 - NaN` and
`Infinity * NaN` are `NaN`). -/
noncomputable def scoreJS (a b : Position) (direction : Direction) : Option ℝ :=
  match getAngleJS a b direction with
  | none => none
  | some angle => some ((1 / getDistance a b) * (Real.pi / 2 - angle))

/-- The JavaScript `<` comparison on scores: `NaN < x` and `x < NaN` are
both false, so a `NaN` never replaces anything and is never replaced. -/
def jsLt : Option ℝ → Option ℝ → Prop
  | some a, some b => a < b
  | _, _ => False

noncomputable instance : ∀ x y : Option ℝ, Decidable (jsLt x y)
  | some a, some b => inferInstanceAs (Decidable (a < b))
  | some _, none => inferInstanceAs (Decidable False)
  | none, some _ => inferInstanceAs (Decidable False)
  | none, none => inferInstanceAs (Decidable False)

/-- Wrong-side test of `getNextNode`: a candidate on the wrong side of the
selected node for the given direction is skipped. -/
def sideSkip (direction : Direction) (sel cand : Position) : Prop :=
  match direction with
  | .n => cand.y > sel.y
  | .s => cand.y < sel.y
  | .e => cand.x < sel.x
  | .w => cand.x > sel.x

noncomputable instance : ∀ (d : Direction) (a b : Position),
    Decidable (sideSkip d a b)
  | .n, a, b => inferInstanceAs (Decidable (b.y > a.y))
  | .s, a, b => inferInstanceAs (Decidable (b.y < a.y))
  | .e, a, b => inferInstanceAs (Decidable (b.x < a.x))
  | .w, a, b => inferInstanceAs (Decidable (b.x > a.x))

/-- Candidate loop of `getNextNode`: walks the node list threading the
current best `{node, score}` pair (`result`), skipping the selected node,
nodes without a position, and nodes on the wrong side; otherwise the
candidate is scored (a `NaN` score, i.e. `none`, arises for a coincident
candidate) and replaces `result` when `!result || result.score < score`,
where `<` is the JavaScript comparison (false on either `NaN`). -/
noncomputable def getNextNodeGo (sel : Node) (sp : Position) (direction : Direction) :
    List Node → Option (Node × Option ℝ) → Option (Node × Option ℝ)
  | [], result => result
  | node :: rest, result =>
    if node = sel then getNextNodeGo sel sp direction rest result
    else
      match node.x, node.y with
      | some nx, some ny =>
        if sideSkip direction sp ⟨nx, ny⟩ then
          getNextNodeGo sel sp direction rest result
        else
          let score := scoreJS sp ⟨nx, ny⟩ direction
          match result with
          | none => getNextNodeGo sel sp direction rest (some (node, score))
          | some (rn, rs) =>
            if jsLt rs score then getNextNodeGo sel sp direction rest (some (node, score))
            else getNextNodeGo sel sp direction rest (some (rn, rs))
      | _, _ => getNextNodeGo sel sp direction rest result

/-- Directional navigator `getNextNode`: returns the node of the best
`{node, score}` pair, or nothing when the selected node is absent or has no
resolved position. -/
noncomputable def getNextNode (nodes : List Node) (selectedNode : Option Node)
    (direction : Direction) : Option Node :=
  match selectedNode with
  | none => none
  | some sel =>
    match sel.x, sel.y with
    | some sx, some sy =>
      (getNextNodeGo sel ⟨sx, sy⟩ direction nodes none).map Prod.fst
    | _, _ => none

/-- A node qualifies as a candidate in `getNextNode` when it is not the
selected node, has a resolved position, and is not on the wrong side. -/
def qualifies (sel : Node) (sp : Position) (direction : Direction) (node : Node) :
    Prop :=
  node ≠ sel ∧
    ∃ nx ny, node.x = some nx ∧ node.y = some ny ∧
      ¬ sideSkip direction sp ⟨nx, ny⟩

/-- Score of a candidate node under JavaScript semantics, reading its
coordinates (defaulting the absent case, which never occurs for a
qualifying candidate). -/
noncomputable def candScore (sp : Position) (direction : Direction) (node : Node) :
    Option ℝ :=
  scoreJS sp ⟨node.x.getD 0, node.y.getD 0⟩ direction

/-- Hit predicate of `handleClick` for a single node against the inverted
(model-space) click point `m`: falsy coordinates (`undefined` or `0`) fail,
otherwise the node is hit when its distance to `m` is strictly below
`targetRadius / transform.k`. -/
noncomputable def nodeHit (t : Transform) (targetRadius : ℝ) (m : Position)
    (node : Node) : Bool :=
  match node.x, node.y with
  | some nx, some ny =>
    if nx = 0 ∨ ny = 0 then false
    else decide (Real.sqrt ((nx - m.x) ^ 2 + (ny - m.y) ^ 2) < targetRadius / t.k)
  | _, _ => false

/-- Click handler hit test: invert the click point through the current
transform, then `find` the first node within the scaled radius. -/
noncomputable def handleClick (t : Transform) (targetRadius : ℝ)
    (nodes : List Node) (click : Position) : Option Node :=
  nodes.find? (nodeHit t targetRadius (t.invert click))

/-- An externally visible effect of `drawToCanvas`: clearing the canvas, a
`drawLink` callback invocation (with screen-space endpoint positions), or a
`drawNode` callback invocation (with a screen-space position). -/
inductive DrawEvent where
  | clear
  | link (l : Link) (source target : Position)
  | node (n : Node) (p : Position)

/-- Link-drawing step of `drawToCanvas`: the link is skipped unless both
endpoints are resolved node objects with defined `x` and `y`; otherwise the
endpoints are transformed and `drawLink` is invoked. -/
noncomputable def linkEvent (t : Transform) (l : Link) : Option DrawEvent :=
  match l.source, l.target with
  | NodeRef.node s, NodeRef.node tg =>
    match s.x, s.y, tg.x, tg.y with
    | some sx, some sy, some tx2, some ty2 =>
      some (.link l (t.apply ⟨sx, sy⟩) (t.apply ⟨tx2, ty2⟩))
    | _, _, _, _ => none
  | _, _ => none

/-- Node-drawing step of `drawToCanvas` (inner `drawNode`): bails out when
`!node.x || !node.y` (coordinate `undefined` or zero), otherwise transforms
the position and invokes the `drawNode` callback. -/
noncomputable def drawNodeEvent (t : Transform) (n : Node) : Option DrawEvent :=
  match n.x, n.y with
  | some nx, some ny =>
    if nx = 0 ∨ ny = 0 then none
    else some (.node n (t.apply ⟨nx, ny⟩))
  | _, _ => none

/-- Node loop of `drawToCanvas`: nodes whose id equals the selected id are
remembered (each match overwrites `selectedNode`) and skipped; every other
node is drawn in order; after the loop the remembered node, if any, is
drawn last. -/
noncomputable def drawNodesLoop (t : Transform) (selectedId : String) :
    List Node → Option Node → List DrawEvent
  | [], selectedNode =>
    match selectedNode with
    | some n => (drawNodeEvent t n).toList
    | none => []
  | n :: rest, selectedNode =>
    if n.id = selectedId then drawNodesLoop t selectedId rest (some n)
    else (drawNodeEvent t n).toList ++ drawNodesLoop t selectedId rest selectedNode

/-- Full redraw `drawToCanvas`: clear the canvas, draw the links in order,
then run the node loop. -/
noncomputable def drawToCanvas (t : Transform) (links : List Link)
    (nodes : List Node) (selectedId : String) : List DrawEvent :=
  DrawEvent.clear :: (links.filterMap (linkEvent t) ++ drawNodesLoop t selectedId nodes none)

/-- The `selectedNode` local of the node loop after the whole list is
processed: the last node whose id matches, else the initial value. -/
def lastSelected (selectedId : String) (acc : Option Node) (nodes : List Node) :
    Option Node :=
  nodes.foldl (fun a n => if n.id = selectedId then some n else a) acc

/-- Events emitted for the remembered selected node after the loop. -/
noncomputable def finalDraw (t : Transform) : Option Node → List DrawEvent
  | some n => (drawNodeEvent t n).toList
  | none => []

/-- Skip condition of the link loop: the link is undrawable when an
endpoint is not a resolved node object or lacks a coordinate. -/
def linkUndrawable (l : Link) : Prop :=
  match l.source, l.target with
  | NodeRef.node s, NodeRef.node tg =>
    s.x = none ∨ s.y = none ∨ tg.x = none ∨ tg.y = none
  | _, _ => True

/-- Invariant of the candidate loop of `getNextNode`: the loop yields
nothing exactly when it started empty and no list element qualifies, and a
yielded pair comes from the accumulator or is a qualifying list element
carrying its own score, is never strictly beaten (in the JavaScript
ordering) by the accumulator's score or by any qualifying list element's
score, and a `NaN` accumulator is sticky (the loop returns it unchanged). -/
def goSpec (sel : Node) (sp : Position) (d : Direction) (l : List Node)
    (acc : Option (Node × Option ℝ)) : Prop :=
  (getNextNodeGo sel sp d l acc = none ↔
    acc = none ∧ ∀ n ∈ l, ¬ qualifies sel sp d n) ∧
  (∀ r, getNextNodeGo sel sp d l acc = some r →
    (acc = some r ∨
      (r.1 ∈ l ∧ qualifies sel sp d r.1 ∧ r.2 = candScore sp d r.1)) ∧
    (∀ q, acc = some q → ¬ jsLt r.2 q.2) ∧
    (∀ q, acc = some q → q.2 = none → r = q) ∧
    (∀ n ∈ l, qualifies sel sp d n → ¬ jsLt r.2 (candScore sp d n)))

lemma mem_zip_map {α β : Type} (f : α → β) (l : List α) (p : β × α)
    (hp : p ∈ (l.map f).zip l) : ∃ x, x ∈ l ∧ p = (f x, x) := by
  induction l with
  | nil => simp at hp
  | cons a rest ih =>
    simp only [List.map_cons, List.zip_cons_cons, List.mem_cons] at hp
    rcases hp with h | h
    · exact ⟨a, List.mem_cons_self a rest, h⟩
    · obtain ⟨x, hx, hpx⟩ := ih h
      exact ⟨x, List.mem_cons_of_mem a hx, hpx⟩

/-- C3: the position-cache merge preserves the incoming list length and,
position by position, keeps each incoming node's id while overwriting its
coordinates with those of the first previous node of the same id, or with
`undefined` when no previous node matches; and no previous match exists
exactly when the id occurs nowhere in the previous list. -/
theorem mergeNodes_spec (prev incoming : List Node) :
    (mergeNodes prev incoming).length = incoming.length ∧
    ∀ p ∈ (mergeNodes prev incoming).zip incoming,
      p.1.id = p.2.id ∧
      (∀ c, prev.find? (fun cached => cached.id == p.2.id) = some c →
        p.1.x = c.x ∧ p.1.y = c.y) ∧
      (prev.find? (fun cached => cached.id == p.2.id) = none →
        p.1.x = none ∧ p.1.y = none) ∧
      ((prev.find? (fun cached => cached.id == p.2.id) = none) ↔
        ∀ c ∈ prev, ¬ c.id = p.2.id) := by
  constructor
  · simp [mergeNodes]
  · intro p hp
    obtain ⟨x, hx, hpx⟩ := mem_zip_map _ incoming p hp
    subst hpx
    refine ⟨rfl, ?_, ?_, ?_⟩
    · intro c hc
      simp [hc]
    · intro hc
      simp [hc]
    · simp [List.find?_eq_none]

/-- Witness for C3 at a concrete cache and incoming list. -/
theorem mergeNodes_spec_witness :
    ((⟨⟨"a", some 1, some 2⟩, ⟨"a", none, none⟩⟩ : Node × Node) ∈
      (mergeNodes [⟨"a", some 1, some 2⟩] [⟨"a", none, none⟩]).zip
        [⟨"a", none, none⟩]) ∧
    ((⟨⟨"a", some 1, some 2⟩, ⟨"a", none, none⟩⟩ : Node × Node).1.id =
        (⟨⟨"a", some 1, some 2⟩, ⟨"a", none, none⟩⟩ : Node × Node).2.id ∧
      (∀ c, [(⟨"a", some 1, some 2⟩ : Node)].find?
            (fun cached => cached.id ==
              (⟨⟨"a", some 1, some 2⟩, ⟨"a", none, none⟩⟩ : Node × Node).2.id) =
            some c →
        (⟨⟨"a", some 1, some 2⟩, ⟨"a", none, none⟩⟩ : Node × Node).1.x = c.x ∧
        (⟨⟨"a", some 1, some 2⟩, ⟨"a", none, none⟩⟩ : Node × Node).1.y = c.y) ∧
      ([(⟨"a", some 1, some 2⟩ : Node)].find?
          (fun cached => cached.id ==
            (⟨⟨"a", some 1, some 2⟩, ⟨"a", none, none⟩⟩ : Node × Node).2.id) =
          none →
        (⟨⟨"a", some 1, some 2⟩, ⟨"a", none, none⟩⟩ : Node × Node).1.x = none ∧
        (⟨⟨"a", some 1, some 2⟩, ⟨"a", none, none⟩⟩ : Node × Node).1.y = none) ∧
      (([(⟨"a", some 1, some 2⟩ : Node)].find?
          (fun cached => cached.id ==
            (⟨⟨"a", some 1, some 2⟩, ⟨"a", none, none⟩⟩ : Node × Node).2.id) =
          none) ↔
        ∀ c ∈ [(⟨"a", some 1, some 2⟩ : Node)],
          ¬ c.id = (⟨⟨"a", some 1, some 2⟩, ⟨"a", none, none⟩⟩ : Node × Node).2.id)) := by
  have hmem : (⟨⟨"a", some 1, some 2⟩, ⟨"a", none, none⟩⟩ : Node × Node) ∈
      (mergeNodes [⟨"a", some 1, some 2⟩] [⟨"a", none, none⟩]).zip
        [⟨"a", none, none⟩] := by
    simp [mergeNodes]
  exact ⟨hmem, (mergeNodes_spec [⟨"a", some 1, some 2⟩] [⟨"a", none, none⟩]).2 _ hmem⟩

/-- C4 (amended): with no selection, Tab reports the memoized node's id
whenever a memo with a nonempty id exists, regardless of whether that node
is still present in the simulation node list; with no memo it reports the
id of the first node of the list. -/
theorem tabTargetId_spec (p : Node) (ns : List Node) (hp : ¬ p.id = "") :
    tabTargetId (some p) ns = Except.ok p.id ∧
    ∀ n rest, tabTargetId none (n :: rest) = Except.ok n.id := by
  constructor
  · simp [tabTargetId, hp]
  · intro n rest
    rfl

/-- Witness for C4 (amended): the memoized id "a" is reported although no
node of the current list carries it. -/
theorem tabTargetId_spec_witness :
    ¬ (Node.mk "a" none none).id = "" ∧
    (tabTargetId (some ⟨"a", none, none⟩) [⟨"b", none, none⟩] = Except.ok "a" ∧
      ∀ n rest, tabTargetId none (n :: rest) = Except.ok n.id) :=
  ⟨by decide, tabTargetId_spec ⟨"a", none, none⟩ [⟨"b", none, none⟩] (by decide)⟩

/-- Counterexample for C4: the memo node "a" is absent from the current
node list, whose first node is "b"; the claim requires reporting "b", but
the code reports "a". -/
theorem tabTargetId_reports_absent_memo :
    tabTargetId (some ⟨"a", none, none⟩) [⟨"b", none, none⟩] = Except.ok "a" ∧
    ¬ tabTargetId (some ⟨"a", none, none⟩) [⟨"b", none, none⟩] = Except.ok "b" ∧
    ∀ n ∈ [(⟨"b", none, none⟩ : Node)], ¬ n.id = "a" := by
  refine ⟨rfl, ?_, ?_⟩
  · intro h
    have h2 : ("a" : String) = "b" := by injection h
    exact absurd h2 (by decide)
  · intro n hn
    simp only [List.mem_singleton] at hn
    subst hn
    decide

/-- C8: the Tab branch of the keydown handler with no selection, no memo
and an empty simulation node list evaluates `simulationNodes.current[0].id`
on an empty array, which raises a TypeError (modelled as `Except.error`). -/
theorem tab_on_empty_graph_raises :
    onTabKeyDown "" false none [] = some (Except.error ()) ∧
    tabTargetId none [] = Except.error () := by
  constructor
  · simp [onTabKeyDown, tabTargetId, firstNodeId]
  · rfl

/-- Counterexample for C9: with a browser window of 800 × 600 and a
component viewport of 400 × 300, the centering force pulls toward
(400, 300) — half the window — not toward the viewport midpoint (200, 150)
required by the claim. -/
theorem forceCenter_ignores_viewport_props :
    forceCenterPoint 800 600 400 300 = ⟨400, 300⟩ ∧
    ¬ forceCenterPoint 800 600 400 300 = ⟨200, 150⟩ := by
  constructor <;> simp only [forceCenterPoint, Position.mk.injEq] <;> norm_num

/-- C9 (amended): the centering force pulls toward half the browser window
size (`window.innerWidth / 2`, `window.innerHeight / 2`); the component's
`width`/`height` props do not enter the computation. -/
theorem forceCenterPoint_spec (iw ih w h w2 h2 : ℝ) :
    forceCenterPoint iw ih w h = ⟨iw / 2, ih / 2⟩ ∧
    forceCenterPoint iw ih w h = forceCenterPoint iw ih w2 h2 :=
  ⟨rfl, rfl⟩

/-- Counterexample for C5: for a candidate exactly coincident with the
selected node, the unguarded angle computation evaluates `atan(0 / 0)`,
which is NaN, and the NaN propagates into the score; there is no guard and
the angle is not well defined there. -/
theorem getAngle_coincident_is_nan :
    getAngleJS ⟨0, 0⟩ ⟨0, 0⟩ Direction.n = none ∧
    scoreJS ⟨0, 0⟩ ⟨0, 0⟩ Direction.n = none := by
  have h : getAngleJS ⟨0, 0⟩ ⟨0, 0⟩ Direction.n = none := by
    simp [getAngleJS]
  exact ⟨h, by simp [scoreJS, h]⟩

/-- C5 (amended): the angle computation is unguarded; under JavaScript
number semantics it never raises a fault, and it yields a well-defined
angle exactly when the two points differ (a zero adjacent side with a
nonzero opposite side gives `atan(Infinity) = π/2`), while a coincident
pair yields a NaN angle that propagates into the score. -/
theorem getAngleJS_spec (a b : Position) (d : Direction) :
    (getAngleJS a b d = none ↔ b.x = a.x ∧ b.y = a.y) ∧
    (scoreJS a b d = none ↔ b.x = a.x ∧ b.y = a.y) := by
  have h1 : getAngleJS a b d = none ↔ b.x = a.x ∧ b.y = a.y := by
    cases d <;>
      · simp only [getAngleJS]
        split_ifs with hadj hopp <;>
          simp_all [abs_eq_zero, sub_eq_zero]
  refine ⟨h1, ?_⟩
  cases hang : getAngleJS a b d with
  | none => simp [scoreJS, hang, ← h1, hang]
  | some v =>
    simp only [scoreJS, hang]
    simp [hang] at h1
    simpa using h1

lemma drawNodeEvent_shape (t : Transform) (n : Node) (e : DrawEvent)
    (h : drawNodeEvent t n = some e) : ∃ p, e = DrawEvent.node n p := by
  unfold drawNodeEvent at h
  split at h
  · split_ifs at h
    exact ⟨_, (Option.some.inj h).symm⟩
  · simp at h

lemma linkEvent_shape (t : Transform) (l : Link) (e : DrawEvent)
    (h : linkEvent t l = some e) : ∃ a b, e = DrawEvent.link l a b := by
  unfold linkEvent at h
  split at h
  · split at h
    · exact ⟨_, _, (Option.some.inj h).symm⟩
    · simp at h
  · simp at h

lemma drawNodesLoop_mem (t : Transform) (sel : String) :
    ∀ (ns : List Node) (acc : Option Node) (e : DrawEvent),
      e ∈ drawNodesLoop t sel ns acc → ∃ n, drawNodeEvent t n = some e := by
  intro ns
  induction ns with
  | nil =>
    intro acc e he
    cases acc with
    | none => simp [drawNodesLoop] at he
    | some m =>
      simp only [drawNodesLoop] at he
      exact ⟨m, Option.mem_def.mp (Option.mem_toList.mp he)⟩
  | cons n rest ih =>
    intro acc e he
    simp only [drawNodesLoop] at he
    split_ifs at he
    · exact ih _ e he
    · rcases List.mem_append.mp he with h | h
      · exact ⟨n, Option.mem_def.mp (Option.mem_toList.mp h)⟩
      · exact ih _ e h

lemma node_event_mem (t : Transform) (ls : List Link) (ns : List Node)
    (sel : String) (n : Node) (p : Position)
    (h : DrawEvent.node n p ∈ drawToCanvas t ls ns sel) :
    drawNodeEvent t n = some (DrawEvent.node n p) := by
  simp only [drawToCanvas, List.mem_cons, List.mem_append] at h
  rcases h with h | h | h
  · simp at h
  · obtain ⟨l2, hl2, he⟩ := List.mem_filterMap.mp h
    obtain ⟨a, b, hab⟩ := linkEvent_shape t l2 _ he
    simp at hab
  · obtain ⟨m, hm⟩ := drawNodesLoop_mem t sel ns none _ h
    obtain ⟨q, hq⟩ := drawNodeEvent_shape t m _ hm
    injection hq with h1 h2
    subst h1
    exact hm

lemma linkEvent_none_of_undrawable (t : Transform) (l : Link)
    (hl : linkUndrawable l) : linkEvent t l = none := by
  rcases l with ⟨src, tgt⟩
  cases src with
  | ref i => cases tgt <;> rfl
  | node s =>
    cases tgt with
    | ref i => rfl
    | node tg =>
      simp only [linkUndrawable] at hl
      rcases hx : s.x with _ | vx
      all_goals rcases hy : s.y with _ | vy
      all_goals rcases hx2 : tg.x with _ | vx2
      all_goals rcases hy2 : tg.y with _ | vy2
      all_goals simp_all [linkEvent]

/-- C7: a link with an unresolved endpoint, or whose endpoint lacks a
resolved coordinate, is skipped by the redraw routine: no `drawLink`
invocation for it ever appears in the redraw trace, and the redraw runs to
completion (no crash). -/
theorem drawToCanvas_skips_bad_links (t : Transform) (ls : List Link)
    (ns : List Node) (sel : String) (l : Link) (hl : linkUndrawable l) :
    linkEvent t l = none ∧
    ∀ a b, ¬ DrawEvent.link l a b ∈ drawToCanvas t ls ns sel := by
  have hnone := linkEvent_none_of_undrawable t l hl
  refine ⟨hnone, ?_⟩
  intro a b hmem
  simp only [drawToCanvas, List.mem_cons, List.mem_append] at hmem
  rcases hmem with h | h | h
  · simp at h
  · obtain ⟨l2, hl2, he⟩ := List.mem_filterMap.mp h
    obtain ⟨a2, b2, hab⟩ := linkEvent_shape t l2 _ he
    injection hab with h1 h2 h3
    subst h1
    rw [hnone] at he
    exact Option.noConfusion he
  · obtain ⟨m, hm⟩ := drawNodesLoop_mem t sel ns none _ h
    obtain ⟨q, hq⟩ := drawNodeEvent_shape t m _ hm
    simp at hq

/-- Witness for C7 at a concrete undrawable link (both endpoints still
unresolved string ids) inside a concrete redraw. -/
theorem drawToCanvas_skips_bad_links_witness :
    linkEvent ⟨1, 0, 0⟩ ⟨NodeRef.ref "x", NodeRef.ref "y"⟩ = none ∧
    ∀ a b, ¬ DrawEvent.link ⟨NodeRef.ref "x", NodeRef.ref "y"⟩ a b ∈
      drawToCanvas ⟨1, 0, 0⟩ [⟨NodeRef.ref "x", NodeRef.ref "y"⟩]
        [⟨"a", some 1, some 2⟩] "" :=
  drawToCanvas_skips_bad_links ⟨1, 0, 0⟩ [⟨NodeRef.ref "x", NodeRef.ref "y"⟩]
    [⟨"a", some 1, some 2⟩] "" ⟨NodeRef.ref "x", NodeRef.ref "y"⟩ (by trivial)

lemma drawNodesLoop_eq (t : Transform) (sel : String) :
    ∀ (ns : List Node) (acc : Option Node),
      drawNodesLoop t sel ns acc =
        (ns.filter fun n => !(n.id == sel)).filterMap (drawNodeEvent t) ++
          finalDraw t (lastSelected sel acc ns) := by
  intro ns
  induction ns with
  | nil =>
    intro acc
    cases acc <;> simp [drawNodesLoop, lastSelected, finalDraw]
  | cons n rest ih =>
    intro acc
    by_cases h : n.id = sel
    · simp [drawNodesLoop, List.filter_cons, lastSelected, h, ih]
    · cases hde : drawNodeEvent t n <;>
        simp [drawNodesLoop, List.filter_cons, List.filterMap_cons, lastSelected,
          h, ih, hde]

/-- C6 (amended): every invocation of the redraw routine clears the
surface first, then draws every resolved link in list order, then draws
every non-selected node that has a truthy resolved position (coordinates
defined and nonzero) in list order, and finally draws the last node whose
id equals the selected id — if one is present and positioned — after all
other nodes. -/
theorem drawToCanvas_order (t : Transform) (ls : List Link) (ns : List Node)
    (sel : String) :
    drawToCanvas t ls ns sel =
      DrawEvent.clear ::
        (ls.filterMap (linkEvent t) ++
          ((ns.filter fun n => !(n.id == sel)).filterMap (drawNodeEvent t) ++
            finalDraw t (lastSelected sel none ns))) := by
  simp [drawToCanvas, drawNodesLoop_eq]

/-- Counterexample for C6: a node with no resolved position produces no
`drawNode` invocation at all — the trace of a redraw over one unpositioned
node is just the clear — so the redraw does not draw every node. -/
theorem drawToCanvas_skips_unpositioned_node :
    drawToCanvas ⟨1, 0, 0⟩ [] [⟨"a", none, none⟩] "" = [DrawEvent.clear] ∧
    ∀ p, ¬ DrawEvent.node ⟨"a", none, none⟩ p ∈
      drawToCanvas ⟨1, 0, 0⟩ [] [⟨"a", none, none⟩] "" := by
  have h : drawToCanvas ⟨1, 0, 0⟩ [] [⟨"a", none, none⟩] "" = [DrawEvent.clear] := by
    simp [drawToCanvas, drawNodesLoop, drawNodeEvent]
  refine ⟨h, ?_⟩
  intro p hp
  rw [h] at hp
  simp at hp

/-- C10: a node whose resolved position has a zero coordinate is skipped by
the redraw routine (no `drawNode` invocation), is never hit by the click
handler, yet still passes the directional navigator's position test and
qualifies as a candidate whenever it is not the selected node and lies on
the correct side. -/
theorem zero_coordinate_node (n : Node) (nx ny : ℝ)
    (hx : n.x = some nx) (hy : n.y = some ny) (h0 : nx = 0 ∨ ny = 0) :
    (∀ t, drawNodeEvent t n = none) ∧
    (∀ t ls ns sel p, ¬ DrawEvent.node n p ∈ drawToCanvas t ls ns sel) ∧
    (∀ t r m, nodeHit t r m n = false) ∧
    (∀ t r ns click, ¬ handleClick t r ns click = some n) ∧
    (∀ sel sp d, ¬ n = sel → ¬ sideSkip d sp ⟨nx, ny⟩ →
      qualifies sel sp d n) := by
  have hdraw : ∀ t, drawNodeEvent t n = none := by
    intro t
    rcases h0 with h0 | h0 <;> subst h0 <;> simp [drawNodeEvent, hx, hy]
  have hhit : ∀ t r m, nodeHit t r m n = false := by
    intro t r m
    rcases h0 with h0 | h0 <;> subst h0 <;> simp [nodeHit, hx, hy]
  have hmem : ∀ t ls ns sel p, ¬ DrawEvent.node n p ∈ drawToCanvas t ls ns sel := by
    intro t ls ns sel p hp
    have hev := node_event_mem t ls ns sel n p hp
    rw [hdraw t] at hev
    exact Option.noConfusion hev
  have hclick : ∀ t r ns click, ¬ handleClick t r ns click = some n := by
    intro t r ns click hc
    unfold handleClick at hc
    have hfound := List.find?_some hc
    rw [hhit t r (Transform.invert t click)] at hfound
    exact Bool.noConfusion hfound
  exact ⟨hdraw, hmem, hhit, hclick, fun sel sp d hne hside =>
    ⟨hne, nx, ny, hx, hy, hside⟩⟩

/-- Witness for C10 at a concrete node positioned at x = 0. -/
theorem zero_coordinate_node_witness :
    (∀ t, drawNodeEvent t ⟨"z", some 0, some 3⟩ = none) ∧
    (∀ t ls ns sel p,
      ¬ DrawEvent.node ⟨"z", some 0, some 3⟩ p ∈ drawToCanvas t ls ns sel) ∧
    (∀ t r m, nodeHit t r m ⟨"z", some 0, some 3⟩ = false) ∧
    (∀ t r ns click, ¬ handleClick t r ns click = some ⟨"z", some 0, some 3⟩) ∧
    (∀ sel sp d, ¬ (⟨"z", some 0, some 3⟩ : Node) = sel →
      ¬ sideSkip d sp ⟨0, 3⟩ → qualifies sel sp d ⟨"z", some 0, some 3⟩) :=
  zero_coordinate_node ⟨"z", some 0, some 3⟩ 0 3 rfl rfl (Or.inl rfl)

/-- C2 (amended): the hit tester first inverts the click through the
current transform; a node is hit exactly when its coordinates are defined
and nonzero and its model-space distance from the inverted point is
STRICTLY below `targetRadius / k`; the first such node in list order is
selected, and no node is selected when none qualifies. -/
theorem handleClick_spec (t : Transform) (r : ℝ) (nodes : List Node)
    (click : Position) :
    (handleClick t r nodes click = none ↔
      ∀ n ∈ nodes, nodeHit t r (t.invert click) n = false) ∧
    (∀ n, handleClick t r nodes click = some n →
      n ∈ nodes ∧ nodeHit t r (t.invert click) n = true) ∧
    (∀ n nx ny, n.x = some nx → n.y = some ny → ¬ nx = 0 → ¬ ny = 0 →
      (nodeHit t r (t.invert click) n = true ↔
        getDistance (t.invert click) ⟨nx, ny⟩ < r / t.k)) := by
  refine ⟨?_, ?_, ?_⟩
  · simp [handleClick, List.find?_eq_none]
  · intro n h
    unfold handleClick at h
    exact ⟨List.mem_of_find?_eq_some h, List.find?_some h⟩
  · intro n nx ny hx hy hnx hny
    simp [nodeHit, hx, hy, hnx, hny, getDistance]

/-- Witness for C2 (amended) at a concrete transform, radius and node. -/
theorem handleClick_spec_witness :
    nodeHit ⟨1, 0, 0⟩ 5 (Transform.invert ⟨1, 0, 0⟩ ⟨0, 0⟩)
        ⟨"a", some 1, some 1⟩ = true ↔
      getDistance (Transform.invert ⟨1, 0, 0⟩ ⟨0, 0⟩) ⟨1, 1⟩ < 5 / (1 : ℝ) :=
  (handleClick_spec ⟨1, 0, 0⟩ 5 [⟨"a", some 1, some 1⟩] ⟨0, 0⟩).2.2
    ⟨"a", some 1, some 1⟩ 1 1 rfl rfl (by norm_num) (by norm_num)

/-- Counterexample for C2: with the identity transform (scale 1) and
`targetRadius = 5`, a node at model-space distance exactly
`targetRadius / k = 5` from the inverted click point is NOT hit — the
comparison is strict — contradicting the claim that a node at offset
exactly `targetRadius / k` is hit. -/
theorem handleClick_misses_at_exact_radius :
    getDistance (Transform.invert ⟨1, 0, 0⟩ ⟨0, 0⟩) ⟨3, 4⟩ = 5 / (1 : ℝ) ∧
    handleClick ⟨1, 0, 0⟩ 5 [⟨"a", some 3, some 4⟩] ⟨0, 0⟩ = none := by
  have hinv : Transform.invert ⟨1, 0, 0⟩ ⟨0, 0⟩ = ⟨0, 0⟩ := by
    simp [Transform.invert]
  have hsq : Real.sqrt (((3 : ℝ) - 0) ^ 2 + ((4 : ℝ) - 0) ^ 2) = 5 := by
    rw [show ((3 : ℝ) - 0) ^ 2 + ((4 : ℝ) - 0) ^ 2 = 5 ^ 2 by norm_num]
    exact Real.sqrt_sq (by norm_num)
  constructor
  · rw [hinv]
    simp only [getDistance]
    rw [show ((3 : ℝ) - (Position.mk 0 0).x) ^ 2 + ((4 : ℝ) - (Position.mk 0 0).y) ^ 2 =
      ((3 : ℝ) - 0) ^ 2 + ((4 : ℝ) - 0) ^ 2 by norm_num]
    rw [hsq]
    norm_num
  · have hfalse : nodeHit ⟨1, 0, 0⟩ 5 ⟨0, 0⟩ ⟨"a", some 3, some 4⟩ = false := by
      simp only [nodeHit]
      rw [if_neg (by norm_num)]
      rw [decide_eq_false_iff_not]
      rw [show ((3 : ℝ) - (Position.mk 0 0).x) ^ 2 + ((4 : ℝ) - (Position.mk 0 0).y) ^ 2 =
        ((3 : ℝ) - 0) ^ 2 + ((4 : ℝ) - 0) ^ 2 by norm_num]
      rw [hsq]
      norm_num
    unfold handleClick
    rw [hinv]
    simp [List.find?, hfalse]

lemma jsLt_irrefl (x : Option ℝ) : ¬ jsLt x x := by
  cases x with
  | none => exact fun h => h
  | some a => exact lt_irrefl a

lemma not_jsLt_none_left (x : Option ℝ) : ¬ jsLt none x := by
  cases x <;> exact fun h => h

lemma not_jsLt_none_right (x : Option ℝ) : ¬ jsLt x none := by
  cases x <;> exact fun h => h

lemma jsLt_some_iff {a b : ℝ} : jsLt (some a) (some b) ↔ a < b := Iff.rfl

lemma goSpec_nil (sel : Node) (sp : Position) (d : Direction)
    (acc : Option (Node × Option ℝ)) : goSpec sel sp d [] acc := by
  constructor
  · simp [getNextNodeGo]
  · intro r hr
    simp only [getNextNodeGo] at hr
    subst hr
    refine ⟨Or.inl rfl, ?_, ?_, by simp⟩
    · intro q hq
      injection hq with h
      subst h
      exact jsLt_irrefl _
    · intro q hq _
      exact Option.some.inj hq

lemma goSpec_skip (sel : Node) (sp : Position) (d : Direction) (n : Node)
    (rest : List Node)
    (hnq : ¬ qualifies sel sp d n)
    (hstep : ∀ acc, getNextNodeGo sel sp d (n :: rest) acc =
      getNextNodeGo sel sp d rest acc)
    (ih : ∀ acc, goSpec sel sp d rest acc) :
    ∀ acc, goSpec sel sp d (n :: rest) acc := by
  intro acc
  obtain ⟨ih1, ih2⟩ := ih acc
  constructor
  · rw [hstep, ih1]
    constructor
    · rintro ⟨ha, hall⟩
      refine ⟨ha, ?_⟩
      intro m hm
      rcases List.mem_cons.mp hm with h | h
      · exact h ▸ hnq
      · exact hall m h
    · rintro ⟨ha, hall⟩
      exact ⟨ha, fun m hm => hall m (List.mem_cons_of_mem n hm)⟩
  · intro r hr
    rw [hstep] at hr
    obtain ⟨hfrom, hacc, hsticky, hmax⟩ := ih2 r hr
    refine ⟨?_, hacc, hsticky, ?_⟩
    · rcases hfrom with h | ⟨hmem, hq, hs⟩
      · exact Or.inl h
      · exact Or.inr ⟨List.mem_cons_of_mem n hmem, hq, hs⟩
    · intro m hm hq
      rcases List.mem_cons.mp hm with h | h
      · exact absurd (h ▸ hq) hnq
      · exact hmax m h hq

lemma goSpec_take (sel : Node) (sp : Position) (d : Direction) (n : Node)
    (rest : List Node) (nx ny : ℝ)
    (hx : n.x = some nx) (hy : n.y = some ny)
    (hside : ¬ sideSkip d sp ⟨nx, ny⟩) (hsel : ¬ n = sel)
    (ih : ∀ acc, goSpec sel sp d rest acc) :
    ∀ acc, goSpec sel sp d (n :: rest) acc := by
  have hq : qualifies sel sp d n := ⟨hsel, nx, ny, hx, hy, hside⟩
  have hcs : candScore sp d n = scoreJS sp ⟨nx, ny⟩ d := by
    simp [candScore, hx, hy]
  have hstep_none : getNextNodeGo sel sp d (n :: rest) none =
      getNextNodeGo sel sp d rest (some (n, scoreJS sp ⟨nx, ny⟩ d)) := by
    simp [getNextNodeGo, hsel, hx, hy, hside]
  have hstep_lt : ∀ rn rs, jsLt rs (scoreJS sp ⟨nx, ny⟩ d) →
      getNextNodeGo sel sp d (n :: rest) (some (rn, rs)) =
      getNextNodeGo sel sp d rest (some (n, scoreJS sp ⟨nx, ny⟩ d)) := by
    intro rn rs hlt
    simp [getNextNodeGo, hsel, hx, hy, hside, hlt]
  have hstep_ge : ∀ rn rs, ¬ jsLt rs (scoreJS sp ⟨nx, ny⟩ d) →
      getNextNodeGo sel sp d (n :: rest) (some (rn, rs)) =
      getNextNodeGo sel sp d rest (some (rn, rs)) := by
    intro rn rs hlt
    simp [getNextNodeGo, hsel, hx, hy, hside, hlt]
  intro acc
  cases acc with
  | none =>
    obtain ⟨ih1, ih2⟩ := ih (some (n, scoreJS sp ⟨nx, ny⟩ d))
    constructor
    · rw [hstep_none]
      constructor
      · intro h
        obtain ⟨ha, _⟩ := ih1.mp h
        exact Option.noConfusion ha
      · rintro ⟨_, hall⟩
        exact absurd hq (hall n (List.mem_cons_self n rest))
    · intro r hr
      rw [hstep_none] at hr
      obtain ⟨hfrom, hacc, hsticky, hmax⟩ := ih2 r hr
      refine ⟨?_, ?_, ?_, ?_⟩
      · rcases hfrom with h | ⟨hmem, hq2, hs⟩
        · refine Or.inr ?_
          have h2 := Option.some.inj h
          rw [← h2]
          exact ⟨List.mem_cons_self n rest, hq, hcs.symm⟩
        · exact Or.inr ⟨List.mem_cons_of_mem n hmem, hq2, hs⟩
      · intro q hqn
        exact Option.noConfusion hqn
      · intro q hqn _
        exact Option.noConfusion hqn
      · intro m hm hqm
        rcases List.mem_cons.mp hm with h | h
        · rw [h, hcs]
          exact hacc (n, scoreJS sp ⟨nx, ny⟩ d) rfl
        · exact hmax m h hqm
  | some p =>
    obtain ⟨rn, rs⟩ := p
    by_cases hlt : jsLt rs (scoreJS sp ⟨nx, ny⟩ d)
    · have hrsv : ∃ rsv sv, rs = some rsv ∧
          scoreJS sp ⟨nx, ny⟩ d = some sv ∧ rsv < sv := by
        cases hrs2 : rs with
        | none =>
          rw [hrs2] at hlt
          exact absurd hlt (not_jsLt_none_left _)
        | some rsv =>
          cases hsv2 : scoreJS sp ⟨nx, ny⟩ d with
          | none =>
            rw [hrs2, hsv2] at hlt
            exact absurd hlt (not_jsLt_none_right _)
          | some sv =>
            rw [hrs2, hsv2] at hlt
            exact ⟨rsv, sv, rfl, rfl, hlt⟩
      obtain ⟨rsv, sv, hrs, hsv, hlt2⟩ := hrsv
      obtain ⟨ih1, ih2⟩ := ih (some (n, scoreJS sp ⟨nx, ny⟩ d))
      constructor
      · rw [hstep_lt rn rs hlt]
        constructor
        · intro h
          obtain ⟨ha, _⟩ := ih1.mp h
          exact Option.noConfusion ha
        · rintro ⟨ha, _⟩
          exact Option.noConfusion ha
      · intro r hr
        rw [hstep_lt rn rs hlt] at hr
        obtain ⟨hfrom, hacc, hsticky, hmax⟩ := ih2 r hr
        have hracc : ¬ jsLt r.2 (scoreJS sp ⟨nx, ny⟩ d) :=
          hacc (n, scoreJS sp ⟨nx, ny⟩ d) rfl
        refine ⟨?_, ?_, ?_, ?_⟩
        · rcases hfrom with h | ⟨hmem, hq2, hs⟩
          · refine Or.inr ?_
            have h2 := Option.some.inj h
            rw [← h2]
            exact ⟨List.mem_cons_self n rest, hq, hcs.symm⟩
          · exact Or.inr ⟨List.mem_cons_of_mem n hmem, hq2, hs⟩
        · intro q hqe
          injection hqe with h2
          subst h2
          show ¬ jsLt r.2 rs
          cases hr2 : r.2 with
          | none => exact not_jsLt_none_left rs
          | some a =>
            rw [hrs]
            rw [hr2, hsv] at hracc
            intro hc
            rw [jsLt_some_iff] at hc
            exact hracc (jsLt_some_iff.mpr (by linarith))
        · intro q hqe hqnone
          injection hqe with h2
          subst h2
          rw [show ((rn, rs).2 : Option ℝ) = rs from rfl, hrs] at hqnone
          exact Option.noConfusion hqnone
        · intro m hm hqm
          rcases List.mem_cons.mp hm with h | h
          · rw [h, hcs]
            exact hracc
          · exact hmax m h hqm
    · obtain ⟨ih1, ih2⟩ := ih (some (rn, rs))
      constructor
      · rw [hstep_ge rn rs hlt]
        constructor
        · intro h
          obtain ⟨ha, _⟩ := ih1.mp h
          exact Option.noConfusion ha
        · rintro ⟨ha, _⟩
          exact Option.noConfusion ha
      · intro r hr
        rw [hstep_ge rn rs hlt] at hr
        obtain ⟨hfrom, hacc, hsticky, hmax⟩ := ih2 r hr
        have hracc : ¬ jsLt r.2 rs := hacc (rn, rs) rfl
        refine ⟨?_, ?_, ?_, ?_⟩
        · rcases hfrom with h | ⟨hmem, hq2, hs⟩
          · exact Or.inl h
          · exact Or.inr ⟨List.mem_cons_of_mem n hmem, hq2, hs⟩
        · intro q hqe
          injection hqe with h2
          subst h2
          exact hracc
        · intro q hqe hqnone
          injection hqe with h2
          subst h2
          exact hsticky (rn, rs) rfl hqnone
        · intro m hm hqm
          rcases List.mem_cons.mp hm with h | h
          · rw [h, hcs]
            cases hrs2 : rs with
            | none =>
              have hrq : r = (rn, rs) := hsticky (rn, rs) rfl (by rw [hrs2])
              rw [hrq]
              show ¬ jsLt rs (scoreJS sp ⟨nx, ny⟩ d)
              rw [hrs2]
              exact not_jsLt_none_left _
            | some rsv =>
              cases hsv2 : scoreJS sp ⟨nx, ny⟩ d with
              | none => exact not_jsLt_none_right _
              | some sv =>
                rw [hrs2, hsv2] at hlt
                rw [hrs2] at hracc
                cases hr2 : r.2 with
                | none => exact not_jsLt_none_left _
                | some a =>
                  rw [hr2] at hracc
                  have h1 : ¬ a < rsv := fun hh => hracc (jsLt_some_iff.mpr hh)
                  have h2 : ¬ rsv < sv := fun hh => hlt (jsLt_some_iff.mpr hh)
                  intro hc
                  rw [jsLt_some_iff] at hc
                  linarith
          · exact hmax m h hqm

lemma getNextNodeGo_spec (sel : Node) (sp : Position) (d : Direction) :
    ∀ (l : List Node) (acc : Option (Node × Option ℝ)), goSpec sel sp d l acc := by
  intro l
  induction l with
  | nil => exact goSpec_nil sel sp d
  | cons n rest ih =>
    by_cases hsel : n = sel
    · refine goSpec_skip sel sp d n rest ?_ ?_ ih
      · exact fun hq => hq.1 hsel
      · intro acc
        simp [getNextNodeGo, hsel]
    · cases hx : n.x with
      | none =>
        refine goSpec_skip sel sp d n rest ?_ ?_ ih
        · rintro ⟨_, nx, ny, hx2, _, _⟩
          rw [hx] at hx2
          exact Option.noConfusion hx2
        · intro acc
          simp [getNextNodeGo, hsel, hx]
      | some nx =>
        cases hy : n.y with
        | none =>
          refine goSpec_skip sel sp d n rest ?_ ?_ ih
          · rintro ⟨_, nx2, ny2, hx2, hy2, _⟩
            rw [hy] at hy2
            exact Option.noConfusion hy2
          · intro acc
            simp [getNextNodeGo, hsel, hx, hy]
        | some ny =>
          by_cases hside : sideSkip d sp ⟨nx, ny⟩
          · refine goSpec_skip sel sp d n rest ?_ ?_ ih
            · rintro ⟨_, nx2, ny2, hx2, hy2, hside2⟩
              rw [hx] at hx2
              rw [hy] at hy2
              injection hx2 with hx3
              injection hy2 with hy3
              rw [← hx3, ← hy3] at hside2
              exact hside2 hside
            · intro acc
              simp [getNextNodeGo, hsel, hx, hy, hside]
          · exact goSpec_take sel sp d n rest nx ny hx hy hside hsel ih

/-- C1 (amended): for every node list, every selected node with a resolved
position and every direction, the directional navigator returns nothing
exactly when no candidate qualifies (a candidate must differ from the
selected node, have a resolved position, and lie on the correct side for
the direction), and any returned node is a qualifying candidate that no
qualifying candidate strictly beats under the JavaScript comparison of the
scores `(1 / d) * (π/2 - atan(opposite/adjacent))`; in particular, whenever
the returned node's score is a real number, it is at least the score of
every real-scored qualifying candidate. A candidate coincident with the
selected node has score NaN, which compares false both ways, so a NaN best
is sticky and need not be a real-score maximum. -/
theorem getNextNode_returns_jsMax (nodes : List Node) (sel : Node) (sx sy : ℝ)
    (hx : sel.x = some sx) (hy : sel.y = some sy) (d : Direction) :
    (getNextNode nodes (some sel) d = none ↔
      ∀ n ∈ nodes, ¬ qualifies sel ⟨sx, sy⟩ d n) ∧
    (∀ n, getNextNode nodes (some sel) d = some n →
      n ∈ nodes ∧ qualifies sel ⟨sx, sy⟩ d n ∧
      (∀ m ∈ nodes, qualifies sel ⟨sx, sy⟩ d m →
        ¬ jsLt (candScore ⟨sx, sy⟩ d n) (candScore ⟨sx, sy⟩ d m)) ∧
      (∀ m ∈ nodes, qualifies sel ⟨sx, sy⟩ d m →
        ∀ a b, candScore ⟨sx, sy⟩ d n = some a →
          candScore ⟨sx, sy⟩ d m = some b → b ≤ a)) := by
  obtain ⟨hgo1, hgo2⟩ := getNextNodeGo_spec sel ⟨sx, sy⟩ d nodes none
  have hdef : getNextNode nodes (some sel) d =
      (getNextNodeGo sel ⟨sx, sy⟩ d nodes none).map Prod.fst := by
    simp [getNextNode, hx, hy]
  constructor
  · rw [hdef, Option.map_eq_none', hgo1]
    simp
  · intro n hn
    rw [hdef] at hn
    obtain ⟨r, hr, hrn⟩ := Option.map_eq_some'.mp hn
    obtain ⟨hfrom, _, _, hmax⟩ := hgo2 r hr
    rcases hfrom with h | ⟨hmem, hq, hs⟩
    · exact Option.noConfusion h
    · subst hrn
      have hjs : ∀ m ∈ nodes, qualifies sel ⟨sx, sy⟩ d m →
          ¬ jsLt (candScore ⟨sx, sy⟩ d r.1) (candScore ⟨sx, sy⟩ d m) := by
        intro m hm hqm
        have := hmax m hm hqm
        rw [hs] at this
        exact this
      refine ⟨hmem, hq, hjs, ?_⟩
      intro m hm hqm a b ha hb
      have := hjs m hm hqm
      rw [ha, hb] at this
      exact le_of_not_lt fun hab => this (jsLt_some_iff.mpr hab)

/-- Witness for C1 (amended) at a concrete two-node graph: node "a"
selected at the origin, node "b" directly north of it. -/
theorem getNextNode_returns_jsMax_witness :
    (getNextNode [⟨"a", some 0, some 0⟩, ⟨"b", some 0, some (-10)⟩]
        (some ⟨"a", some 0, some 0⟩) Direction.n = none ↔
      ∀ n ∈ [(⟨"a", some 0, some 0⟩ : Node), ⟨"b", some 0, some (-10)⟩],
        ¬ qualifies ⟨"a", some 0, some 0⟩ ⟨0, 0⟩ Direction.n n) ∧
    (∀ n, getNextNode [⟨"a", some 0, some 0⟩, ⟨"b", some 0, some (-10)⟩]
        (some ⟨"a", some 0, some 0⟩) Direction.n = some n →
      n ∈ [(⟨"a", some 0, some 0⟩ : Node), ⟨"b", some 0, some (-10)⟩] ∧
      qualifies ⟨"a", some 0, some 0⟩ ⟨0, 0⟩ Direction.n n ∧
      (∀ m ∈ [(⟨"a", some 0, some 0⟩ : Node), ⟨"b", some 0, some (-10)⟩],
        qualifies ⟨"a", some 0, some 0⟩ ⟨0, 0⟩ Direction.n m →
        ¬ jsLt (candScore ⟨0, 0⟩ Direction.n n) (candScore ⟨0, 0⟩ Direction.n m)) ∧
      (∀ m ∈ [(⟨"a", some 0, some 0⟩ : Node), ⟨"b", some 0, some (-10)⟩],
        qualifies ⟨"a", some 0, some 0⟩ ⟨0, 0⟩ Direction.n m →
        ∀ a b, candScore ⟨0, 0⟩ Direction.n n = some a →
          candScore ⟨0, 0⟩ Direction.n m = some b → b ≤ a)) :=
  getNextNode_returns_jsMax [⟨"a", some 0, some 0⟩, ⟨"b", some 0, some (-10)⟩]
    ⟨"a", some 0, some 0⟩ 0 0 rfl rfl Direction.n

/-- Counterexample for C1: selected node "a" at the origin, direction
north, candidates in list order "c" (a distinct node exactly coincident
with "a") and "b" at (0, -10). Both qualify; "b" has the positive real
score (1/10)·(π/2) while "c" scores NaN. The loop stores "c" first, and
NaN compares false against everything, so "c" is returned — not the
highest-scoring candidate "b". -/
theorem getNextNode_sticky_nan :
    getNextNode
        [⟨"a", some 0, some 0⟩, ⟨"c", some 0, some 0⟩, ⟨"b", some 0, some (-10)⟩]
        (some ⟨"a", some 0, some 0⟩) Direction.n = some ⟨"c", some 0, some 0⟩ ∧
    qualifies ⟨"a", some 0, some 0⟩ ⟨0, 0⟩ Direction.n ⟨"b", some 0, some (-10)⟩ ∧
    candScore ⟨0, 0⟩ Direction.n ⟨"c", some 0, some 0⟩ = none ∧
    candScore ⟨0, 0⟩ Direction.n ⟨"b", some 0, some (-10)⟩ =
      some ((1 / 10) * (Real.pi / 2)) ∧
    0 < (1 / 10 : ℝ) * (Real.pi / 2) := by
  have hCnan : scoreJS ⟨0, 0⟩ ⟨0, 0⟩ Direction.n = none := by
    simp [scoreJS, getAngleJS]
  have hang : getAngleJS ⟨0, 0⟩ ⟨0, -10⟩ Direction.n = some 0 := by
    simp [getAngleJS]
  have hd : getDistance ⟨0, 0⟩ ⟨0, -10⟩ = 10 := by
    simp only [getDistance]
    rw [show (((0 : ℝ) - 0) ^ 2 + ((-10 : ℝ) - 0) ^ 2 : ℝ) = 10 ^ 2 by norm_num]
    exact Real.sqrt_sq (by norm_num)
  have hBscore : scoreJS ⟨0, 0⟩ ⟨0, -10⟩ Direction.n =
      some ((1 / 10) * (Real.pi / 2)) := by
    simp [scoreJS, hang, hd]
  refine ⟨?_, ?_, ?_, ?_, ?_⟩
  · simp [getNextNode, getNextNodeGo, sideSkip, jsLt, Node.mk.injEq, hCnan]
  · refine ⟨?_, 0, -10, rfl, rfl, ?_⟩
    · intro h
      injection h with h1
      exact absurd h1 (by decide)
    · simp [sideSkip]
  · simp [candScore, hCnan]
  · simp [candScore, hBscore]
  · positivity

end Lumen
